import Mathlib

/-!
# Verification of the inbound-email normalization & forwarding-recovery pipeline

Shallow embedding of `src/web/src/app/api/inbound-email/route.ts`.

Strings are modelled as `List Char` (we write `Str`).  JavaScript's regular
expressions are modelled by hand-written matchers that implement the exact
leftmost-match/greedy semantics of the concrete patterns appearing in the
source.  `i`-flagged (case-insensitive) matching is modelled with ASCII
`Char.toLower` folding, which agrees with JS semantics on the ASCII inputs
this pipeline handles.  JavaScript `null`/`undefined` is `Option`, and JS
string truthiness (`""` is falsy) is modelled explicitly at each use site.
-/

set_option maxRecDepth 20000

abbrev Str := List Char

/-- JS `\s` whitespace class (the ASCII part; the pipeline's inputs are ASCII). -/
def isWs (c : Char) : Bool :=
  c = ' ' || c = '\t' || c = '\n' || c = '\r' || c = '\x0b' || c = '\x0c'

def toLowerStr (s : Str) : Str := s.map Char.toLower

def toUpperStr (s : Str) : Str := s.map Char.toUpper

/-- JS `String.prototype.trim` (ASCII whitespace). -/
def trimStr (s : Str) : Str :=
  ((s.dropWhile isWs).reverse.dropWhile isWs).reverse

/-- Case-sensitive "does `s` start with `pat`" (pattern first). -/
def startsWithSub : Str → Str → Bool
  | [], _ => true
  | _ :: _, [] => false
  | p :: ps, c :: cs => p = c && startsWithSub ps cs

/-- JS `String.prototype.includes`: case-sensitive substring test. -/
def containsSub (s pat : Str) : Bool :=
  match s with
  | [] => startsWithSub pat []
  | c :: t => startsWithSub pat (c :: t) || containsSub t pat

/-- Case-insensitive "does `s` start with `pat`" (pattern first); models an
`i`-flagged anchored literal regex. -/
def startsWithCI : Str → Str → Bool
  | [], _ => true
  | _ :: _, [] => false
  | p :: ps, c :: cs => p.toLower = c.toLower && startsWithCI ps cs

/-- Case-insensitive substring test; models `new RegExp(escapedLiteral, "i").test(s)`. -/
def containsCI (s pat : Str) : Bool :=
  match s with
  | [] => startsWithCI pat []
  | c :: t => startsWithCI pat (c :: t) || containsCI t pat

/-- Case-insensitive string equality. -/
def ciEq (a b : Str) : Bool := toLowerStr a = toLowerStr b

/-- `pat` is (case-insensitively) a suffix of `s`. -/
def isSuffixCI (pat : Str) : Str → Bool
  | [] => ciEq pat []
  | c :: t => ciEq pat (c :: t) || isSuffixCI pat t

/-- One global, case-insensitive, leftmost, non-overlapping literal
replacement pass: models `s.replace(new RegExp(escapedLiteral, "gi"), repl)`.
The fuel argument (instantiated with `s.length`) makes the recursion
structural; each step consumes at least one character of `s`. -/
def replaceAllCIAux (pat repl : Str) : Nat → Str → Str
  | 0, s => s
  | _ + 1, [] => []
  | fuel + 1, c :: rest =>
    if startsWithCI pat (c :: rest) then
      repl ++ replaceAllCIAux pat repl fuel (rest.drop (pat.length - 1))
    else
      c :: replaceAllCIAux pat repl fuel rest

/-- `s.replace(new RegExp(escapedLiteral, "gi"), repl)` for a non-empty
literal `pat` (the redaction config filters out empty patterns; the guard
only keeps the function total). -/
def replaceAllCI (pat repl s : Str) : Str :=
  if pat = [] then s else replaceAllCIAux pat repl s.length s

/-- `text.split(/\r?\n/)` : split on `\n`, also consuming a directly
preceding `\r`; a lone `\r` is not a separator. -/
def splitLinesAux : Str → Str → List Str
  | acc, [] => [acc.reverse]
  | acc, '\r' :: '\n' :: rest => acc.reverse :: splitLinesAux [] rest
  | acc, '\n' :: rest => acc.reverse :: splitLinesAux [] rest
  | acc, c :: rest => splitLinesAux (c :: acc) rest

def splitLines (s : Str) : List Str := splitLinesAux [] s

/-!
## Redaction configuration (route.ts lines 92-121)

`env.HONEYTRAP_EMAILS` / `env.HONEYTRAP_IDS` are environment strings; an
unset variable is modelled as the empty string (both are falsy in the
source's `env.X ? ... : []` guard). -/

structure HoneytrapEnv where
  HONEYTRAP_EMAILS : Str
  HONEYTRAP_IDS : Str
deriving DecidableEq, Repr

/-- route.ts lines 93-95: `env.HONEYTRAP_EMAILS.split(',').map(e => e.trim()).filter(e => e.length > 0)`. -/
def honeytrapEmails (env : HoneytrapEnv) : List Str :=
  if env.HONEYTRAP_EMAILS = [] then []
  else ((List.splitOn ',' env.HONEYTRAP_EMAILS).map trimStr).filter (· ≠ [])

/-- route.ts lines 97-99: same for `HONEYTRAP_IDS`. -/
def honeytrapIds (env : HoneytrapEnv) : List Str :=
  if env.HONEYTRAP_IDS = [] then []
  else ((List.splitOn ',' env.HONEYTRAP_IDS).map trimStr).filter (· ≠ [])

def emailPlaceholder : Str := "*******@*******.com".toList

def idPlaceholder : Str := "########".toList

/-- route.ts lines 105-121 (`redactHoneytrap`): replace every configured
honeytrap email, then every configured tracking id, case-insensitively,
with fixed placeholders.  The source escapes regex metacharacters in each
configured string, so every pass is a literal global `gi` replace. -/
def redactHoneytrap (env : HoneytrapEnv) (text : Str) : Str :=
  let r1 := (honeytrapEmails env).foldl (fun acc e => replaceAllCI e emailPlaceholder acc) text
  (honeytrapIds env).foldl (fun acc i => replaceAllCI i idPlaceholder acc) r1

/-- `pat` does not interact with the replacement string `repl`:
`pat` does not occur (case-insensitively) inside `repl`, `repl` does not
occur inside `pat`, no non-empty prefix of `pat` is a suffix of `repl`,
and no non-empty proper suffix of `pat` is a prefix of `repl`.
Under this condition a replacement can neither contain, be spliced into,
nor recreate an occurrence of `pat`. -/
def overlapFree (pat repl : Str) : Bool :=
  !containsCI repl pat &&
  !containsCI pat repl &&
  ((List.range pat.length).all fun k => !isSuffixCI (pat.take (k + 1)) repl) &&
  ((List.range (pat.length - 1)).all fun k => !startsWithCI (pat.drop (k + 1)) repl)

/-!
## Payload decoder (route.ts lines 15-56)

The four encodings.  Platform primitives are modelled as request data:
`body` is the result of `req.text()`; `jsonFields` is the result of
`req.json()` (`none` = the promise rejected on malformed JSON — the source
guards this with `.catch(() => ({}))`); `formFields` is the result of
`req.formData()` (`none` = the promise rejected, which the WHATWG fetch
`formData()` does on a body that is not parseable as `multipart/form-data`,
e.g. a missing or wrong boundary — the source has no guard there).
JSON field values are modelled as strings: the source immediately coerces
every field with `String(...)` and only string-shaped payloads are relevant
to the claims. -/

structure RawRequest where
  contentType : Str
  body : Str
  jsonFields : Option (List (Str × Str))
  formFields : Option (List (Str × Str))
deriving DecidableEq, Repr

structure NormalizedMessage where
  sender : Str
  subject : Str
  bodyPlain : Str
  bodyHtml : Str
  messageHeaders : Str
deriving DecidableEq, Repr

/-- Value of a hexadecimal digit character (by code point), `none` otherwise. -/
def hexVal (c : Char) : Option Nat :=
  let n := c.toNat
  if 48 ≤ n ∧ n < 58 then some (n - 48)
  else if 97 ≤ n ∧ n < 103 then some (n - 87)
  else if 65 ≤ n ∧ n < 71 then some (n - 55)
  else none

/-- `application/x-www-form-urlencoded` component decoding as done by
`URLSearchParams`: `+` becomes a space, `%XX` with two hex digits decodes to
that byte, anything malformed passes through unchanged (never throws).
Multi-byte UTF-8 sequences are out of scope for the claims. -/
def percentDecode : Str → Str
  | [] => []
  | '+' :: rest => ' ' :: percentDecode rest
  | '%' :: h1 :: h2 :: rest =>
    match hexVal h1, hexVal h2 with
    | some v1, some v2 => Char.ofNat (16 * v1 + v2) :: percentDecode rest
    | _, _ => '%' :: percentDecode (h1 :: h2 :: rest)
  | c :: rest => c :: percentDecode rest

/-- Split one `k=v` segment at the first `=`; a segment without `=` is a key
with empty value. -/
def parseParamPair (seg : Str) : Str × Str :=
  let k := seg.takeWhile (· ≠ '=')
  match seg.drop k.length with
  | '=' :: v => (percentDecode k, percentDecode v)
  | _ => (percentDecode k, [])

/-- `new URLSearchParams(rawBody)`: strip one leading `?`, split on `&`,
drop empty segments, decode each pair.  Total — parsing never throws. -/
def parseURLParams (s : Str) : List (Str × Str) :=
  let s' := match s with
    | '?' :: rest => rest
    | _ => s
  ((List.splitOn '&' s').filter (· ≠ [])).map parseParamPair

/-- `params.get(k)` / property access: first value stored under the key. -/
def lookupParam (ps : List (Str × Str)) (k : Str) : Option Str :=
  (ps.find? (fun p => p.1 = k)).map (·.2)

/-- `params.get(k1) || params.get(k2) || ... || ""` — JS `||` skips both
`null` and the empty string. -/
def firstNonEmpty (ps : List (Str × Str)) : List Str → Str
  | [] => []
  | k :: rest =>
    match lookupParam ps k with
    | some v => if v ≠ [] then v else firstNonEmpty ps rest
    | none => firstNonEmpty ps rest

def senderKeys : List Str := ["sender".toList, "from".toList, "From".toList]
def subjectKeys : List Str := ["subject".toList, "Subject".toList]
def bodyPlainKeys : List Str := ["body-plain".toList, "stripped-text".toList, "text".toList]
def bodyHtmlKeys : List Str := ["body-html".toList, "stripped-html".toList, "html".toList]
def headerKeys : List Str := ["message-headers".toList]

def fieldsFrom (ps : List (Str × Str)) : NormalizedMessage :=
  ⟨firstNonEmpty ps senderKeys, firstNonEmpty ps subjectKeys,
   firstNonEmpty ps bodyPlainKeys, firstNonEmpty ps bodyHtmlKeys,
   firstNonEmpty ps headerKeys⟩

def ctUrlEncoded : Str := "application/x-www-form-urlencoded".toList
def ctMultipart : Str := "multipart/form-data".toList
def ctJson : Str := "application/json".toList

/-- route.ts lines 15-56: decode the webhook payload by content-type.
`.error ()` models an exception escaping the decoder to the handler's
top-level `catch` (the 500 `internal_error` path); this happens exactly when
the multipart branch is taken and `req.formData()` rejects. -/
def decodePayload (req : RawRequest) : Except Unit NormalizedMessage :=
  if containsSub req.contentType ctUrlEncoded then
    .ok (fieldsFrom (parseURLParams req.body))
  else if containsSub req.contentType ctMultipart then
    match req.formFields with
    | none => .error ()
    | some fs => .ok (fieldsFrom fs)
  else if containsSub req.contentType ctJson then
    .ok (fieldsFrom (req.jsonFields.getD []))
  else
    .ok (fieldsFrom (parseURLParams req.body))

/-!
## HTML stripping and forwarding detection (route.ts lines 317-329)
-/

/-- One global pass of `html.replace(/<[^>]+>/g, " ")`: a `<`, at least one
non-`>` character, then `>`, replaced by a single space; a `<` with no
closing `>` (or immediately followed by `>`) matches nothing and is kept.
Fuel (`html.length`) makes the recursion structural. -/
def stripTagsAux : Nat → Str → Str
  | 0, s => s
  | _ + 1, [] => []
  | fuel + 1, '<' :: rest =>
    (match rest with
    | '>' :: _ => '<' :: stripTagsAux fuel rest
    | _ =>
      let mid := rest.takeWhile (· ≠ '>')
      match rest.drop mid.length with
      | '>' :: rest2 => ' ' :: stripTagsAux fuel rest2
      | _ => '<' :: stripTagsAux fuel rest)
  | fuel + 1, c :: rest => c :: stripTagsAux fuel rest

/-- One global pass of `.replace(/\s+/g, " ")`. -/
def collapseWsAux : Nat → Str → Str
  | 0, s => s
  | _ + 1, [] => []
  | fuel + 1, c :: rest =>
    if isWs c then ' ' :: collapseWsAux fuel (rest.dropWhile isWs)
    else c :: collapseWsAux fuel rest

/-- route.ts `stripHtml`: drop tags, collapse whitespace, trim. -/
def stripHtml (html : Str) : Str :=
  let t := stripTagsAux html.length html
  trimStr (collapseWsAux t.length t)

/-- `/forwarded message|begin forwarded message/i.test(s)`. -/
def regexForwardTest (s : Str) : Bool :=
  containsCI s "forwarded message".toList || containsCI s "begin forwarded message".toList

/-- route.ts `detectForwardedEmail` (lines 323-329). -/
def detectForwardedEmail (subject bodyText bodyHtml : Str) : Bool :=
  let subj := toLowerStr subject
  if startsWithSub "fwd:".toList subj || containsSub subj "fw:".toList then true
  else regexForwardTest bodyText || regexForwardTest bodyHtml

/-!
## Header recovery engine (route.ts lines 347-411)
-/

/-- `/^-+\s*Forwarded message\s*-+/i` on a single (already
quote-stripped) line: a run of dashes, optional whitespace, the literal
(case-insensitive), optional whitespace, at least one dash. -/
def isDashForwardedMarker (L : Str) : Bool :=
  let dashes := L.takeWhile (· = '-')
  let afterWs := (L.drop dashes.length).dropWhile isWs
  !dashes.isEmpty && startsWithCI "forwarded message".toList afterWs &&
    (match (afterWs.drop 17).dropWhile isWs with
     | '-' :: _ => true
     | _ => false)

/-- `/^Begin forwarded message:/i`. -/
def isBeginForwardedMarker (L : Str) : Bool :=
  startsWithCI "begin forwarded message:".toList L

/-- There is an `@` somewhere in `s` with at least one character after it. -/
def hasAtThenChar : Str → Bool
  | [] => false
  | c :: rest => (c = '@' && !rest.isEmpty) || hasAtThenChar rest

/-- `/^From:\s+.+@.+/i`: `From:` (case-insensitive), one or more whitespace
characters, then some character, an `@`, and some character.  Equivalent to:
position 5 is whitespace and an `@` occurs at a position `≥ 7` that is not
the last character. -/
def isOutlookFromMarker (L : Str) : Bool :=
  startsWithCI "from:".toList L &&
  (match L.drop 5 with
   | c :: _ => isWs c
   | [] => false) &&
  hasAtThenChar (L.drop 7)

def isForwardBoundary (L : Str) : Bool :=
  isDashForwardedMarker L || isBeginForwardedMarker L || isOutlookFromMarker L

/-- `line.match(/^From:\s+(.+)$/i)` returning capture group 1: the greedy
`\s+` eats the maximal whitespace run after `From:`, the capture is the
rest of the line; on an all-whitespace tail of length ≥ 2 the `\s+`
backtracks one character so the capture is that last whitespace character. -/
def matchFromCapture (L : Str) : Option Str :=
  if startsWithCI "from:".toList L then
    match L.drop 5 with
    | [] => none
    | c :: rest =>
      if isWs c then
        let ds := (c :: rest).dropWhile isWs
        if ds ≠ [] then some ds
        else match (c :: rest).reverse with
          | last :: _ :: _ => some [last]
          | _ => none
      else none
  else none

/-- The honeytrap list as built inside `validateAndCleanFromLine`
(route.ts lines 390-392): trimmed, lower-cased, non-empty entries. -/
def validateHoneytraps (env : HoneytrapEnv) : List Str :=
  if env.HONEYTRAP_EMAILS = [] then []
  else ((List.splitOn ',' env.HONEYTRAP_EMAILS).map (fun e => toLowerStr (trimStr e))).filter (· ≠ [])

/-- route.ts `validateAndCleanFromLine` (lines 381-401): trim; require an
`@` and length > 5; reject if the lower-cased line contains any configured
honeytrap address as a substring. -/
def validateAndCleanFromLine (env : HoneytrapEnv) (fromLine : Str) : Option Str :=
  let cleaned := trimStr fromLine
  if !cleaned.contains '@' || cleaned.length ≤ 5 then none
  else if (validateHoneytraps env).any (fun e => containsSub (toLowerStr cleaned) e) then none
  else some cleaned

/-- Inner loop of `extractOriginalFromLine` (lines 364-373): scan lines
`j = i .. min(i+20, length)-1`; on the first `From:` match, return
(`some`) the validated value — even when validation yields `none`, the
source `return`s immediately; stop early (`none` = resume the outer scan)
at an empty line strictly after the boundary. -/
def fromInnerScan (env : HoneytrapEnv) (lines : List Str) (i : Nat) : Nat → Nat → Option (Option Str)
  | _, 0 => none
  | j, steps + 1 =>
    match lines.get? j with
    | none => none
    | some L =>
      match matchFromCapture L with
      | some cap => some (validateAndCleanFromLine env cap)
      | none =>
        if trimStr L = [] ∧ i < j then none
        else fromInnerScan env lines i (j + 1) steps

/-- Outer loop of `extractOriginalFromLine` (lines 360-375): scan up to the
first 100 lines for a forward boundary; at each boundary run the inner
scan; a `some` from the inner scan is the function's result. -/
def fromOuterScan (env : HoneytrapEnv) (lines : List Str) : Nat → Nat → Option Str
  | _, 0 => none
  | i, steps + 1 =>
    match lines.get? i with
    | none => none
    | some L =>
      if isForwardBoundary L then
        match fromInnerScan env lines i i (min (i + 20) lines.length - i) with
        | some r => r
        | none => fromOuterScan env lines (i + 1) steps
      else fromOuterScan env lines (i + 1) steps

/-- route.ts `extractOriginalFromLine` (lines 350-378): split into lines,
strip leading whitespace/quote markers, then boundary-scoped search for a
`From:` header. -/
def extractOriginalFromLine (env : HoneytrapEnv) (text : Str) : Option Str :=
  let lines := (splitLines text).map (fun l => l.dropWhile (fun c => isWs c || c = '>'))
  fromOuterScan env lines 0 (min lines.length 100)

/-!
## Bare email-address parsing (route.ts lines 403-411, 333-345)
-/

/-- `[a-zA-Z0-9._%+-]` -/
def isLocalChar (c : Char) : Bool :=
  c.isAlphanum || c = '.' || c = '_' || c = '%' || c = '+' || c = '-'

/-- `[a-zA-Z0-9.-]` -/
def isDomainChar (c : Char) : Bool := c.isAlphanum || c = '.' || c = '-'

/-- Match `[a-zA-Z0-9.-]+\.[a-zA-Z]{2,}` anchored at the start of `s`,
with the greedy/backtracking semantics of the JS engine: the first class
takes the maximal run, then backtracks to the last `.` that is followed by
at least two letters; the trailing letter class is greedy. -/
def matchDomainAt (s : Str) : Option Str :=
  let R := s.takeWhile isDomainChar
  let ks := (List.range R.length).filter fun k =>
    decide (1 ≤ k) && (R.get? k == some '.') &&
      decide (2 ≤ ((R.drop (k + 1)).takeWhile Char.isAlpha).length)
  match ks.getLast? with
  | some k => some (R.take k ++ '.' :: (R.drop (k + 1)).takeWhile Char.isAlpha)
  | none => none

/-- Match `[a-zA-Z0-9._%+-]+@[a-zA-Z0-9.-]+\.[a-zA-Z]{2,}` anchored at the
start of `s` (local part is the maximal run — shorter runs cannot be
followed by `@`, so no backtracking case arises). -/
def matchEmailAt (s : Str) : Option Str :=
  let L := s.takeWhile isLocalChar
  if L = [] then none
  else match s.drop L.length with
    | '@' :: rest =>
      (match matchDomainAt rest with
      | some dom => some (L ++ '@' :: dom)
      | none => none)
    | _ => none

/-- Leftmost match of the email pattern anywhere in `s` (JS `String.match`
without `g`: try each start position left to right). -/
def parseEmailAddressCore : Str → Option Str
  | [] => none
  | c :: rest =>
    match matchEmailAt (c :: rest) with
    | some m => some m
    | none => parseEmailAddressCore rest

/-- route.ts `parseEmailAddress` (lines 407-411); the argument is
`Option Str` because one call site passes `originalFromLine || undefined`.
An empty string is falsy (`if (!input) return null`). -/
def parseEmailAddress : Option Str → Option Str
  | none => none
  | some s => if s = [] then none else parseEmailAddressCore s

/-- `line.match(/^From:\s*(?:"[^"]*"\s*)?<?(email)>?/i)` from
`extractOriginalSender`: optional quoted display name, optional `<`, then
the email pattern; returns capture group 1 (the bare address). -/
def matchSenderLine (L : Str) : Option Str :=
  if startsWithCI "from:".toList L then
    let s1 := (L.drop 5).dropWhile isWs
    let s2 := match s1 with
      | '"' :: r =>
        let nm := r.takeWhile (· ≠ '"')
        (match r.drop nm.length with
        | '"' :: r2 => r2.dropWhile isWs
        | _ => s1)
      | _ => s1
    let s3 := match s2 with
      | '<' :: r => r
      | _ => s2
    matchEmailAt s3
  else none

def firstSenderMatch : List Str → Option Str
  | [] => none
  | L :: rest =>
    match matchSenderLine L with
    | some a => some a
    | none => firstSenderMatch rest

/-- route.ts `extractOriginalSender` (lines 333-345): scan the first 50
lines (split on `"\n"`, unstripped) for a `From:` line and return the bare
address. -/
def extractOriginalSender (text : Str) : Option Str :=
  firstSenderMatch ((List.splitOn '\n' text).take 50)

/-!
## The handler's derived facts (route.ts lines 58-187)
-/

/-- route.ts line 67: `bodyPlain || stripHtml(bodyHtml)`. -/
def rawTextOf (bodyPlain bodyHtml : Str) : Str :=
  if bodyPlain ≠ [] then bodyPlain else stripHtml bodyHtml

/-- route.ts line 70: `detectForwardedEmail(subject || "", rawText, bodyHtml || "")`. -/
def computeIsForwarded (subject bodyPlain bodyHtml : Str) : Bool :=
  detectForwardedEmail subject (rawTextOf bodyPlain bodyHtml) bodyHtml

/-- route.ts lines 74-84: extract the original From line from the plain
body, else from the HTML stripped to text; if still missing, and only for
a message not detected as forwarded, fall back to the envelope sender. -/
def computeOriginalFromLine (env : HoneytrapEnv) (sender subject bodyPlain bodyHtml : Str) :
    Option Str :=
  let o1 := extractOriginalFromLine env (rawTextOf bodyPlain bodyHtml)
  let o2 := match o1 with
    | some v => some v
    | none => if bodyHtml ≠ [] then extractOriginalFromLine env (stripHtml bodyHtml) else none
  match o2 with
  | some v => some v
  | none =>
    if sender = [] then none
    else if computeIsForwarded subject bodyPlain bodyHtml then none
    else some sender

/-- route.ts lines 156-160 (`detectedSender`): prefer an address parsed
out of `originalFromLine`, then a secondary scan of the (stripped,
redacted) body text, then the envelope sender — parsed, else verbatim. -/
def computeDetectedSender (originalFromLine : Option Str) (rawText sender : Str) : Str :=
  match parseEmailAddress originalFromLine with
  | some a => a
  | none =>
    match extractOriginalSender rawText with
    | some a => a
    | none =>
      match parseEmailAddress (some sender) with
      | some a => a
      | none => sender

/-- route.ts lines 174-187 (`forwarderEmail`): only for forwarded
messages; the parsed (else verbatim) envelope sender, suppressed when it
contains a configured honeytrap address (case-insensitively). -/
def computeForwarderEmail (env : HoneytrapEnv) (isForwarded : Bool) (envelopeSender : Str) :
    Option Str :=
  if isForwarded then
    let parsedEnvelope := match parseEmailAddress (some envelopeSender) with
      | some a => some a
      | none => if envelopeSender ≠ [] then some envelopeSender else none
    match parsedEnvelope with
    | some p =>
      if (honeytrapEmails env).any (fun e => containsSub (toLowerStr p) (toLowerStr e)) then none
      else some p
    | none => none
  else none

/-!
## Date normalizer (route.ts lines 459-517)

`new Date(string)` is the JS host's implementation-defined date parser; it
is modelled as an oracle `jsDate : Str → Option Int` giving the epoch
timestamp in milliseconds, `none` standing for an invalid date (`NaN`).
Everything the source builds around that parser is embedded exactly. -/

/-- First (leftmost) match of `/\s+at\s+/i` replaced by a single space
(`dateStr.replace(/\s+at\s+/i, " ")`; no `g` flag, so one replacement):
a maximal whitespace run immediately followed by `at` (case-insensitive)
and at least one more whitespace character. -/
def replaceAtWord : Str → Str
  | [] => []
  | c :: rest =>
    if isWs c then
      let run := (c :: rest).takeWhile isWs
      let afterRun := (c :: rest).drop run.length
      if startsWithCI "at".toList afterRun &&
          (match afterRun.drop 2 with
           | d :: _ => isWs d
           | [] => false) then
        ' ' :: (afterRun.drop 2).dropWhile isWs
      else c :: replaceAtWord rest
    else c :: replaceAtWord rest

/-- Match `([A-Za-z]+)\s+(\d{1,2}),?\s+(\d{4})` anchored at the start of
`s`, returning the three captures (month name, day, year).  Greedy with
the JS backtracking order: two-digit day is tried before one-digit; the
optional comma is tried consumed before skipped. -/
def tryMDYAt (s : Str) : Option (Str × Str × Str) :=
  let a := s.takeWhile Char.isAlpha
  if a = [] then none
  else
    let s1 := s.drop a.length
    let w := s1.takeWhile isWs
    if w = [] then none
    else
      let s2 := s1.drop w.length
      let d := s2.takeWhile Char.isDigit
      if d = [] then none
      else
        let tryYear : Str → Option Str := fun s4 =>
          let w2 := s4.takeWhile isWs
          if w2 = [] then none
          else
            let y := (s4.drop w2.length).takeWhile Char.isDigit
            if 4 ≤ y.length then some (y.take 4) else none
        let tryDay : Nat → Option (Str × Str × Str) := fun dlen =>
          let day := s2.take dlen
          let s3 := s2.drop dlen
          let withComma := match s3 with
            | ',' :: r => tryYear r
            | _ => none
          match withComma with
          | some y => some (a, day, y)
          | none =>
            match tryYear s3 with
            | some y => some (a, day, y)
            | none => none
        if 2 ≤ d.length then
          match tryDay 2 with
          | some r => some r
          | none => tryDay 1
        else tryDay 1

/-- Leftmost match of the month/day/year pattern
(`dateStr.match(/([A-Za-z]+)\s+(\d{1,2}),?\s+(\d{4})/)`). -/
def findMDY : Str → Option (Str × Str × Str)
  | [] => none
  | c :: rest =>
    match tryMDYAt (c :: rest) with
    | some r => some r
    | none => findMDY rest

/-- Match `(\d{1,2}):(\d{2})(?::(\d{2}))?\s*(AM|PM)?` (with `i`) anchored
at the start of `s`: returns (hours capture, minutes capture, AM/PM
capture if present). -/
def tryTimeAt (s : Str) : Option (Str × Str × Option Str) :=
  let d := s.takeWhile Char.isDigit
  if d = [] then none
  else
    let tryH : Nat → Option (Str × Str × Option Str) := fun hlen =>
      let h := s.take hlen
      match s.drop hlen with
      | ':' :: r1 =>
        let m2 := r1.take 2
        if m2.length = 2 ∧ m2.all Char.isDigit then
          let r2 := r1.drop 2
          let r3 := match r2 with
            | ':' :: a :: b :: rr => if a.isDigit ∧ b.isDigit then rr else r2
            | _ => r2
          let r4 := r3.dropWhile isWs
          let ampm : Option Str :=
            if startsWithCI "am".toList r4 ∨ startsWithCI "pm".toList r4 then some (r4.take 2)
            else none
          some (h, m2, ampm)
        else none
      | _ => none
    if 2 ≤ d.length then
      match tryH 2 with
      | some r => some r
      | none => tryH 1
    else tryH 1

/-- Leftmost match of the time pattern
(`dateStr.match(/(\d{1,2}):(\d{2})(?::(\d{2}))?\s*(AM|PM)?/i)`). -/
def findTime : Str → Option (Str × Str × Option Str)
  | [] => none
  | c :: rest =>
    match tryTimeAt (c :: rest) with
    | some r => some r
    | none => findTime rest

/-- `parseInt(digits, 10)` on a non-empty digit string. -/
def digitsToNat (s : Str) : Nat :=
  s.foldl (fun n c => 10 * n + (c.toNat - 48)) 0

/-- Decimal rendering of a `Nat` (fuel-structural so it evaluates by `decide`). -/
def natToStrAux : Nat → Nat → Str
  | 0, _ => []
  | fuel + 1, n =>
    if n < 10 then [Char.ofNat (n + 48)]
    else natToStrAux fuel (n / 10) ++ [Char.ofNat (n % 10 + 48)]

def natToStr (n : Nat) : Str := natToStrAux (n + 1) n

/-- `minutes.toString().padStart(2, "0")`. -/
def padStart2 (s : Str) : Str :=
  if 2 ≤ s.length then s else List.replicate (2 - s.length) '0' ++ s

/-- route.ts `parseEmailDateString` (lines 464-505): direct parse, then
with the first `\s+at\s+` collapsed, then the month/day/year + optional
time reassembly fed back to the host parser. -/
def parseEmailDateString (jsDate : Str → Option Int) (dateStr : Str) : Option Int :=
  if dateStr = [] then none
  else
    match jsDate dateStr with
    | some t => some t
    | none =>
      match jsDate (replaceAtWord dateStr) with
      | some t => some t
      | none =>
        match findMDY dateStr with
        | none => none
        | some (month, day, year) =>
          let hm : Nat × Nat :=
            match findTime dateStr with
            | none => (0, 0)
            | some (h, m, ampm) =>
              let hn := digitsToNat h
              let mn := digitsToNat m
              match ampm with
              | none => (hn, mn)
              | some ap =>
                let up := toUpperStr ap
                let hn1 := if up = "PM".toList ∧ hn ≠ 12 then hn + 12 else hn
                let hn2 := if up = "AM".toList ∧ hn1 = 12 then 0 else hn1
                (hn2, mn)
          jsDate (month ++ ' ' :: day ++ ',' :: ' ' :: year ++ ' ' ::
            natToStr hm.1 ++ ':' :: padStart2 (natToStr hm.2))

/-- route.ts `isValidEmailDate` (lines 511-517): within
`[now − 365 days, now + 1 day]` (milliseconds).  The source's `isNaN`
check is absorbed by the `Option` modelling of invalid dates. -/
def isValidEmailDate (now t : Int) : Bool :=
  decide (now - 365 * 24 * 60 * 60 * 1000 ≤ t) && decide (t ≤ now + 24 * 60 * 60 * 1000)

/-- The per-candidate step of `extractOriginalDateFromBody` (route.ts
lines 444-449): parse the recovered date string and keep it only if it is
inside the sanity window; otherwise the candidate yields nothing. -/
def processDateCandidate (jsDate : Str → Option Int) (now : Int) (dateStr : Str) : Option Int :=
  match parseEmailDateString jsDate dateStr with
  | some t => if isValidEmailDate now t then some t else none
  | none => none

/-!
## Orchestrator (route.ts lines 191-310)

The post-ingestion control flow: which HTTP response is produced and which
downstream triggers fire, as a function of the ingestion collaborator's
result and the request facts.  Collaborator calls are recorded as data;
their own failures are logged in the source and (for the fire-and-forget
screenshot and the guarded notice call) never change the response. -/

structure IngestResult where
  ok : Bool
  error : Option Str
  id : Option Str
  isFundraising : Bool
  landingUrl : Option Str
deriving DecidableEq, Repr

inductive Trigger where
  | pipelines (id : Str)
  | screenshot (id url : Str)
  | nonFundraisingNotice (id : Str)
deriving DecidableEq, Repr

inductive HandlerResponse where
  | ok200 (id : Option Str)
  | dup200 (id : Option Str)
  | ingestFailed500
deriving DecidableEq, Repr

/-- JS truthiness of an optional string (`undefined`, `null` and `""` are
falsy). -/
def strTruthy : Option Str → Bool
  | none => false
  | some s => !s.isEmpty

def dupStr : Str := "duplicate".toList

/-- route.ts lines 218-310: duplicate → 200 with duplicate flag and no
triggers; failure without id → 500; fundraising with id → classify/sender
pipeline plus (if a landing URL was detected) the screenshot trigger;
otherwise → the non-fundraising notice exactly when an id was assigned,
the message was detected as forwarded, and the envelope sender is
non-empty; always 200 `{ok:true, id}` on the fall-through paths. -/
def orchestrate (result : IngestResult) (isForwarded : Bool) (envelopeSender : Str) :
    HandlerResponse × List Trigger :=
  if result.ok = false ∧ result.error = some dupStr then
    (.dup200 result.id, [])
  else if result.ok = false ∧ strTruthy result.id = false then
    (.ingestFailed500, [])
  else if result.isFundraising = true ∧ strTruthy result.id = true then
    match result.id with
    | some i =>
      (.ok200 result.id,
        .pipelines i ::
          (match result.landingUrl with
           | some u => if u ≠ [] then [.screenshot i u] else []
           | none => []))
    | none => (.ok200 result.id, [])
  else
    (.ok200 result.id,
      if strTruthy result.id = true ∧ isForwarded = true ∧ envelopeSender ≠ [] then
        match result.id with
        | some i => [.nonFundraisingNotice i]
        | none => []
      else [])

/-- Number of non-fundraising-notice calls in a trigger list. -/
def noticeCount (ts : List Trigger) : Nat :=
  (ts.filter fun t =>
    match t with
    | .nonFundraisingNotice _ => true
    | _ => false).length

/-!
## Claim theorems
-/

/-- C4 (counterexample): the claim "the payload decoder never throws,
across all four encodings" fails on the multipart branch: a request
declaring `multipart/form-data` whose body the platform multipart parser
rejects makes `await req.formData()` throw (there is no `.catch` on that
branch, unlike the JSON branch), which escapes to the top-level catch. -/
theorem C4_decode_counterexample :
    decodePayload ⟨"multipart/form-data; boundary=x".toList, "not multipart".toList,
      none, none⟩ = .error () := rfl

/-- C4 (amended): the decoder is total — producing a `NormalizedMessage`
with missing fields degraded to the empty string — on the URL-encoded,
JSON and best-effort fallback paths, and on the multipart path whenever
the platform multipart parse succeeds; it throws exactly when the
multipart branch is taken and `req.formData()` rejects. -/
theorem C4_decode_error_characterization (req : RawRequest) :
    decodePayload req = .error () ↔
      containsSub req.contentType ctUrlEncoded = false ∧
      containsSub req.contentType ctMultipart = true ∧
      req.formFields = none := by
  unfold decodePayload
  by_cases h1 : containsSub req.contentType ctUrlEncoded = true <;>
    by_cases h2 : containsSub req.contentType ctMultipart = true <;>
      by_cases h3 : containsSub req.contentType ctJson = true <;>
        cases hf : req.formFields <;>
          simp_all

/-- C7: for every recovered date string, normalization yields `none`
(never raises) whenever every parsing strategy fails or the parsed
timestamp lies outside the sanity window `[now − 365 d, now + 1 d]`. -/
theorem C7_date_normalization_null (jsDate : Str → Option Int) (now : Int) (dateStr : Str)
    (h : parseEmailDateString jsDate dateStr = none ∨
      ∃ t, parseEmailDateString jsDate dateStr = some t ∧ isValidEmailDate now t = false) :
    processDateCandidate jsDate now dateStr = none := by
  unfold processDateCandidate
  rcases h with h | ⟨t, ht, hv⟩
  · rw [h]
  · rw [ht]
    simp [hv]

/-- C7 witness: a host parser dating the string two years before `now`
(epoch 0 vs `now` = two years in milliseconds) is out of window, so the
candidate yields `none`, not the literal date. -/
theorem C7_witness :
    (parseEmailDateString (fun _ => some 0) "Jan 1, 2024".toList = none ∨
      ∃ t, parseEmailDateString (fun _ => some 0) "Jan 1, 2024".toList = some t ∧
        isValidEmailDate 63072000000 t = false) ∧
    processDateCandidate (fun _ => some 0) 63072000000 "Jan 1, 2024".toList = none :=
  ⟨Or.inr ⟨0, rfl, by decide⟩,
   C7_date_normalization_null (fun _ => some 0) 63072000000 "Jan 1, 2024".toList
     (Or.inr ⟨0, rfl, by decide⟩)⟩

/-- C9: whenever the ingestion collaborator reports a duplicate
(`ok = false`, `error = "duplicate"`), the handler responds 200 with the
duplicate flag and the reported id, and no downstream trigger fires. -/
theorem C9_duplicate_suppresses_triggers (result : IngestResult) (isForwarded : Bool)
    (envelopeSender : Str) (h1 : result.ok = false) (h2 : result.error = some dupStr) :
    orchestrate result isForwarded envelopeSender = (.dup200 result.id, []) := by
  unfold orchestrate
  simp [h1, h2]

/-- C9 witness. -/
theorem C9_witness :
    ((⟨false, some dupStr, some "id7".toList, true, none⟩ : IngestResult).ok = false ∧
      (⟨false, some dupStr, some "id7".toList, true, none⟩ : IngestResult).error = some dupStr) ∧
    orchestrate ⟨false, some dupStr, some "id7".toList, true, none⟩ false []
      = (.dup200 (some "id7".toList), []) :=
  ⟨⟨rfl, rfl⟩, C9_duplicate_suppresses_triggers _ false [] rfl rfl⟩

/-- C10: an ingestion result with `ok = false`, an error other than
"duplicate", but a (truthy) assigned id does not take the 500
`ingest_failed` path: the handler falls through to the trigger branches
and responds 200 `{ok:true, id}`. -/
theorem C10_failed_ingest_with_id_responds_200 (result : IngestResult) (isForwarded : Bool)
    (envelopeSender : Str) (h1 : result.ok = false) (h2 : result.error ≠ some dupStr)
    (h3 : strTruthy result.id = true) :
    (orchestrate result isForwarded envelopeSender).1 = .ok200 result.id := by
  unfold orchestrate
  have hd : ¬(result.ok = false ∧ result.error = some dupStr) := fun hc => h2 hc.2
  have hni : ¬(result.ok = false ∧ strTruthy result.id = false) := by
    simp [h3]
  rw [if_neg hd, if_neg hni]
  by_cases hfu : result.isFundraising = true ∧ strTruthy result.id = true
  · rw [if_pos hfu]
    cases hid : result.id with
    | none => simp
    | some i => simp
  · rw [if_neg hfu]

/-- C10 witness. -/
theorem C10_witness :
    ((⟨false, some "storage_error".toList, some "id9".toList, false, none⟩ : IngestResult).ok
        = false ∧
      (⟨false, some "storage_error".toList, some "id9".toList, false, none⟩ : IngestResult).error
        ≠ some dupStr ∧
      strTruthy (⟨false, some "storage_error".toList, some "id9".toList, false, none⟩ :
        IngestResult).id = true) ∧
    (orchestrate ⟨false, some "storage_error".toList, some "id9".toList, false, none⟩ false
      []).1 = .ok200 (some "id9".toList) :=
  ⟨⟨rfl, by decide, rfl⟩,
   C10_failed_ingest_with_id_responds_200 _ false [] rfl (by decide) rfl⟩

/-- C3 (counterexample): the non-fundraising notice is **not** restricted
to a known (non-decoy) forwarder: with the envelope sender being a
configured honeytrap, `forwarderEmail` is `null` (the forwarder is a
decoy), yet the notice trigger still fires — the branch tests
`isForwarded && envelopeSender`, not `forwarderEmail`. -/
theorem C3_counterexample :
    computeForwarderEmail ⟨"bot@decoy.org".toList, []⟩ true "bot@decoy.org".toList = none ∧
    noticeCount (orchestrate ⟨true, none, some "id1".toList, false, none⟩ true
      "bot@decoy.org".toList).2 = 1 := by decide

/-- C3 (amended): for a successfully ingested, non-duplicate,
non-fundraising message with an assigned id, the non-fundraising notice
fires exactly once iff the message was detected as forwarded and the
envelope sender is non-empty — regardless of whether the forwarder is a
configured decoy. -/
theorem C3_notice_fires_iff_forwarded_envelope (result : IngestResult) (isForwarded : Bool)
    (envelopeSender : Str) (hok : result.ok = true) (hnf : result.isFundraising = false)
    (hid : strTruthy result.id = true) :
    noticeCount (orchestrate result isForwarded envelopeSender).2 = 1 ↔
      isForwarded = true ∧ envelopeSender ≠ [] := by
  unfold orchestrate
  have hne1 : ¬(result.ok = false ∧ result.error = some dupStr) := by simp [hok]
  have hne2 : ¬(result.ok = false ∧ strTruthy result.id = false) := by simp [hok]
  have hne3 : ¬(result.isFundraising = true ∧ strTruthy result.id = true) := by simp [hnf]
  rw [if_neg hne1, if_neg hne2, if_neg hne3]
  obtain ⟨i, hi⟩ : ∃ i, result.id = some i := by
    cases h : result.id with
    | none => rw [h] at hid; exact absurd hid (by simp [strTruthy])
    | some i => exact ⟨i, rfl⟩
  by_cases hcond : strTruthy result.id = true ∧ isForwarded = true ∧ envelopeSender ≠ []
  · rw [if_pos hcond, hi]
    simp [noticeCount, hcond.2.1, hcond.2.2]
  · rw [if_neg hcond]
    simp only [noticeCount, List.filter_nil, List.length_nil]
    constructor
    · intro h
      exact absurd h (by simp)
    · intro h
      exact absurd ⟨hid, h.1, h.2⟩ hcond

/-- C3 witness: non-decoy forwarder, notice fires exactly once. -/
theorem C3_witness :
    ((⟨true, none, some "id2".toList, false, none⟩ : IngestResult).ok = true ∧
      (⟨true, none, some "id2".toList, false, none⟩ : IngestResult).isFundraising = false ∧
      strTruthy (⟨true, none, some "id2".toList, false, none⟩ : IngestResult).id = true) ∧
    (noticeCount (orchestrate ⟨true, none, some "id2".toList, false, none⟩ true
        "alice@example.com".toList).2 = 1 ↔
      true = true ∧ "alice@example.com".toList ≠ ([] : Str)) :=
  ⟨⟨rfl, rfl, rfl⟩,
   C3_notice_fires_iff_forwarded_envelope _ true "alice@example.com".toList rfl rfl rfl⟩

/-- C5 (counterexample): a non-forwarded message (no forward markers, plain
subject) whose body nevertheless starts with an Outlook-style `From:` line
gets that line extracted, so `originalFromLine` is the extracted address,
not the (non-empty) envelope sender — the extraction runs before, and
regardless of, the `isForwarded` test. -/
theorem C5_counterexample :
    computeIsForwarded "hello".toList "From: alice@example.com\nhi".toList [] = false ∧
    ("bob@example.com".toList : Str) ≠ [] ∧
    computeOriginalFromLine ⟨[], []⟩ "bob@example.com".toList "hello".toList
      "From: alice@example.com\nhi".toList [] = some "alice@example.com".toList ∧
    some "alice@example.com".toList ≠ some "bob@example.com".toList := by decide

/-- C5 (amended): for a non-forwarded message with a non-empty envelope
sender, `originalFromLine` equals the envelope sender *whenever no From
line was extracted from the plain or HTML bodies*. -/
theorem C5_envelope_fallback (env : HoneytrapEnv) (sender subject bodyPlain bodyHtml : Str)
    (hf : computeIsForwarded subject bodyPlain bodyHtml = false)
    (hs : sender ≠ [])
    (h1 : extractOriginalFromLine env (rawTextOf bodyPlain bodyHtml) = none)
    (h2 : extractOriginalFromLine env (stripHtml bodyHtml) = none) :
    computeOriginalFromLine env sender subject bodyPlain bodyHtml = some sender := by
  simp [computeOriginalFromLine, h1, h2, hf, hs]

/-- C5 witness. -/
theorem C5_witness :
    (computeIsForwarded "hello".toList "hi".toList [] = false ∧
      ("bob@example.com".toList : Str) ≠ [] ∧
      extractOriginalFromLine ⟨[], []⟩ (rawTextOf "hi".toList []) = none ∧
      extractOriginalFromLine ⟨[], []⟩ (stripHtml []) = none) ∧
    computeOriginalFromLine ⟨[], []⟩ "bob@example.com".toList "hello".toList "hi".toList []
      = some "bob@example.com".toList :=
  ⟨⟨by decide, by decide, by decide, by decide⟩,
   C5_envelope_fallback ⟨[], []⟩ _ _ _ _ (by decide) (by decide) (by decide) (by decide)⟩

theorem startsWithSub_refl (s : Str) : startsWithSub s s = true := by
  induction s with
  | nil => rfl
  | cons c t ih => simp [startsWithSub, ih]

theorem containsSub_self (s : Str) : containsSub s s = true := by
  cases s with
  | nil => rfl
  | cons c t => simp [containsSub, startsWithSub_refl]

/-- A `some` answer of `validateAndCleanFromLine` passed every check; in
particular the honeytrap-substring scan came back empty. -/
theorem validate_some_no_honeytrap {env : HoneytrapEnv} {cap v : Str}
    (h : validateAndCleanFromLine env cap = some v) :
    (validateHoneytraps env).any (fun e => containsSub (toLowerStr v) e) = false := by
  simp only [validateAndCleanFromLine] at h
  split at h
  · exact absurd h (by simp)
  · split at h
    next hAny => exact absurd h (by simp)
    next hAny =>
      have hv : trimStr cap = v := Option.some.inj h
      rw [← hv]
      simpa using hAny

/-- Every `some` produced by the inner From scan is an output of
`validateAndCleanFromLine`. -/
theorem fromInnerScan_sound (env : HoneytrapEnv) (lines : List Str) (i : Nat) :
    ∀ steps j r, fromInnerScan env lines i j steps = some r →
      ∃ cap, validateAndCleanFromLine env cap = r := by
  intro steps
  induction steps with
  | zero => intro j r h; exact absurd h (by simp [fromInnerScan])
  | succ n ih =>
    intro j r h
    rw [fromInnerScan] at h
    split at h
    · exact absurd h (by simp)
    · split at h
      · rename_i cap hm
        exact ⟨cap, Option.some.inj h⟩
      · split at h
        · exact absurd h (by simp)
        · exact ih _ _ h

/-- Every `some` produced by the outer boundary scan is an output of
`validateAndCleanFromLine`. -/
theorem fromOuterScan_sound (env : HoneytrapEnv) (lines : List Str) :
    ∀ steps i v, fromOuterScan env lines i steps = some v →
      ∃ cap, validateAndCleanFromLine env cap = some v := by
  intro steps
  induction steps with
  | zero => intro i v h; exact absurd h (by simp [fromOuterScan])
  | succ n ih =>
    intro i v h
    rw [fromOuterScan] at h
    split at h
    · exact absurd h (by simp)
    · split at h
      · split at h
        · rename_i r hr
          obtain ⟨cap, hc⟩ := fromInnerScan_sound env lines i _ _ _ hr
          exact ⟨cap, hc.trans h⟩
        · exact ih _ _ h
      · exact ih _ _ h

theorem extractOriginalFromLine_sound {env : HoneytrapEnv} {text v : Str}
    (h : extractOriginalFromLine env text = some v) :
    ∃ cap, validateAndCleanFromLine env cap = some v :=
  fromOuterScan_sound env _ _ _ _ h

/-- C1 (counterexample): the claimed invariant — `originalFromLine`, when
present, is never a configured honeytrap address, *on every path including
the envelope-sender fallback* — fails: for a non-forwarded message whose
envelope sender is itself a configured honeytrap, the fallback assigns the
envelope sender with no honeytrap validation. -/
theorem C1_counterexample :
    ("sender@decoy.org".toList ∈ honeytrapEmails ⟨"sender@decoy.org".toList, []⟩) ∧
    computeOriginalFromLine ⟨"sender@decoy.org".toList, []⟩ "sender@decoy.org".toList
      "hello".toList "hi there".toList [] = some "sender@decoy.org".toList := by decide

/-- C1 (amended): the invariant holds on the body-recovery path: a From
line recovered by `extractOriginalFromLine` passed
`validateAndCleanFromLine`, so its lower-casing contains no configured
(trimmed, lower-cased) honeytrap address as a substring — in particular it
never *equals* one.  (The envelope-sender fallback path performs no such
validation; see the counterexample.) -/
theorem C1_recovered_from_line_never_honeytrap (env : HoneytrapEnv) (text v : Str)
    (h : extractOriginalFromLine env text = some v) :
    ∀ e ∈ validateHoneytraps env, containsSub (toLowerStr v) e = false ∧ toLowerStr v ≠ e := by
  obtain ⟨cap, hc⟩ := extractOriginalFromLine_sound h
  have hAny := validate_some_no_honeytrap hc
  intro e he
  have h1 : containsSub (toLowerStr v) e = false := by
    by_contra hne
    have htrue : containsSub (toLowerStr v) e = true := by
      cases hx : containsSub (toLowerStr v) e with
      | false => exact absurd hx hne
      | true => rfl
    have : (validateHoneytraps env).any (fun e => containsSub (toLowerStr v) e) = true :=
      List.any_eq_true.mpr ⟨e, he, htrue⟩
    rw [hAny] at this
    exact absurd this (by simp)
  refine ⟨h1, ?_⟩
  intro heq
  rw [heq] at h1
  rw [containsSub_self] at h1
  exact absurd h1 (by simp)

/-- C1 witness: a recovered From line in the presence of a configured
honeytrap list, instantiated at the configured honeytrap `x@y.com`. -/
theorem C1_witness :
    (extractOriginalFromLine ⟨"x@y.com".toList, []⟩
        "---------- Forwarded message ---------\nFrom: Jane <jane@example.org>\nDate: x".toList
      = some "Jane <jane@example.org>".toList) ∧
    (containsSub (toLowerStr "Jane <jane@example.org>".toList) "x@y.com".toList = false ∧
      toLowerStr "Jane <jane@example.org>".toList ≠ "x@y.com".toList) :=
  ⟨by decide,
   C1_recovered_from_line_never_honeytrap ⟨"x@y.com".toList, []⟩
     "---------- Forwarded message ---------\nFrom: Jane <jane@example.org>\nDate: x".toList
     "Jane <jane@example.org>".toList (by decide) "x@y.com".toList (by decide)⟩

/-- C2 (counterexample): for a forwarded message from which nothing can be
recovered, `originalFromLine` does stay `null` — but the downstream
detected sender (route.ts lines 156-160, stored as `senderId`) is
backfilled with the envelope (forwarder's) address via the
`parseEmailAddress(sender) || sender` fallback, contradicting the claim
that "the downstream sender address is not backfilled". -/
theorem C2_counterexample :
    computeIsForwarded "hi".toList "see the forwarded message below".toList [] = true ∧
    computeOriginalFromLine ⟨[], []⟩ "bob@example.com".toList "hi".toList
      "see the forwarded message below".toList [] = none ∧
    redactHoneytrap ⟨[], []⟩ "see the forwarded message below".toList
      = "see the forwarded message below".toList ∧
    computeDetectedSender none "see the forwarded message below".toList "bob@example.com".toList
      = "bob@example.com".toList := by decide

/-- C2 (amended): if the message is forwarded and no From line was
recovered from either body, `originalFromLine` remains `null` (the From
line is not backfilled with the forwarder's address); the downstream
detected sender, however, falls back to
`parseEmailAddress(envelope) || envelope` whenever the secondary body scan
also finds nothing. -/
theorem C2_forwarded_unrecovered (env : HoneytrapEnv)
    (sender subject bodyPlain bodyHtml rawTextProcessed : Str)
    (hf : computeIsForwarded subject bodyPlain bodyHtml = true)
    (h1 : extractOriginalFromLine env (rawTextOf bodyPlain bodyHtml) = none)
    (h2 : extractOriginalFromLine env (stripHtml bodyHtml) = none)
    (h3 : extractOriginalSender rawTextProcessed = none) :
    computeOriginalFromLine env sender subject bodyPlain bodyHtml = none ∧
    computeDetectedSender (computeOriginalFromLine env sender subject bodyPlain bodyHtml)
        rawTextProcessed sender
      = (parseEmailAddress (some sender)).getD sender := by
  have hofl : computeOriginalFromLine env sender subject bodyPlain bodyHtml = none := by
    simp [computeOriginalFromLine, h1, h2, hf]
  refine ⟨hofl, ?_⟩
  rw [hofl]
  unfold computeDetectedSender
  rw [h3]
  cases hp : parseEmailAddress (some sender) with
  | none => simp [parseEmailAddress]
  | some a => simp [parseEmailAddress]

/-- C2 witness. -/
theorem C2_witness :
    (computeIsForwarded "hi".toList "fyi forwarded message:".toList [] = true ∧
      extractOriginalFromLine ⟨[], []⟩ (rawTextOf "fyi forwarded message:".toList []) = none ∧
      extractOriginalFromLine ⟨[], []⟩ (stripHtml []) = none ∧
      extractOriginalSender "fyi forwarded message:".toList = none) ∧
    (computeOriginalFromLine ⟨[], []⟩ "carol@example.net".toList "hi".toList
        "fyi forwarded message:".toList [] = none ∧
      computeDetectedSender (computeOriginalFromLine ⟨[], []⟩ "carol@example.net".toList
          "hi".toList "fyi forwarded message:".toList [])
        "fyi forwarded message:".toList "carol@example.net".toList
      = (parseEmailAddress (some "carol@example.net".toList)).getD
          "carol@example.net".toList) :=
  ⟨⟨by decide, by decide, by decide, by decide⟩,
   C2_forwarded_unrecovered ⟨[], []⟩ _ _ _ _ _ (by decide) (by decide) (by decide) (by decide)⟩

/-!
## Redaction correctness lemmas (for C6 and C8)

A single `gi` replacement pass removes every occurrence of its pattern, and
later passes cannot recreate one, provided the pattern does not overlap the
replacement placeholder (`overlapFree`).  The counterexamples show the
guarantee genuinely fails without that proviso. -/

theorem containsCI_of_startsWithCI {s pat : Str} (h : startsWithCI pat s = true) :
    containsCI s pat = true := by
  cases s with
  | nil => exact h
  | cons c t => simp [containsCI, h]

theorem containsCI_append_right (A : Str) {X pat : Str} (h : containsCI X pat = true) :
    containsCI (A ++ X) pat = true := by
  induction A with
  | nil => simpa using h
  | cons a A' ih => simp [containsCI, ih]

theorem containsCI_mono_suffix {B S pat : Str} (hs : B <:+ S) (h : containsCI B pat = true) :
    containsCI S pat = true := by
  obtain ⟨u, rfl⟩ := hs
  exact containsCI_append_right u h

theorem containsCI_of_suffix_start {t s pat : Str} (hs : t <:+ s)
    (h : startsWithCI pat t = true) : containsCI s pat = true :=
  containsCI_mono_suffix hs (containsCI_of_startsWithCI h)

theorem isSuffixCI_of_ciEq_suffix {x B R : Str} (he : ciEq x B = true) (hs : B <:+ R) :
    isSuffixCI x R = true := by
  induction R with
  | nil =>
    have : B = [] := List.suffix_nil.mp hs
    subst this
    simpa [isSuffixCI] using he
  | cons c t ih =>
    rcases List.suffix_cons_iff.mp hs with h1 | h2
    · subst h1
      simp [isSuffixCI, he]
    · simp [isSuffixCI, ih h2]

theorem ciEq_cons {a b : Char} {as bs : Str} :
    ciEq (a :: as) (b :: bs) = (decide (a.toLower = b.toLower) && ciEq as bs) := by
  simp [ciEq, toLowerStr]

theorem startsWithCI_append_split {e B X : Str} (h : startsWithCI e (B ++ X) = true) :
    (e.length ≤ B.length ∧ startsWithCI e B = true) ∨
    (B.length < e.length ∧ ciEq (e.take B.length) B = true ∧
      startsWithCI (e.drop B.length) X = true) := by
  induction B generalizing e with
  | nil =>
    cases e with
    | nil => exact Or.inl ⟨Nat.le_refl _, rfl⟩
    | cons e0 es =>
      refine Or.inr ⟨by simp, by simp [ciEq, toLowerStr], ?_⟩
      simpa using h
  | cons b B' ih =>
    cases e with
    | nil => exact Or.inl ⟨by simp, rfl⟩
    | cons e0 es =>
      simp only [List.cons_append, startsWithCI, Bool.and_eq_true, decide_eq_true_eq] at h
      obtain ⟨h1, h2⟩ := h
      rcases ih h2 with ⟨hl, hs⟩ | ⟨hl, hc, hd⟩
      · refine Or.inl ⟨Nat.succ_le_succ hl, ?_⟩
        simp [startsWithCI, h1, hs]
      · refine Or.inr ⟨Nat.succ_lt_succ hl, ?_, ?_⟩
        · simpa [List.length_cons, List.take, ciEq_cons, h1] using hc
        · simpa [List.length_cons, List.drop] using hd

theorem startsWithCI_of_take_ciEq {p s : Str} (hlen : p.length ≤ s.length)
    (h : ciEq (s.take p.length) p = true) : startsWithCI p s = true := by
  induction p generalizing s with
  | nil => rfl
  | cons p0 ps ih =>
    cases s with
    | nil => exact absurd hlen (by simp)
    | cons s0 ss =>
      simp only [List.length_cons, List.take, ciEq_cons, Bool.and_eq_true,
        decide_eq_true_eq] at h
      obtain ⟨h1, h2⟩ := h
      simp only [startsWithCI, Bool.and_eq_true, decide_eq_true_eq]
      exact ⟨h1.symm, ih (Nat.le_of_succ_le_succ hlen) h2⟩

/-- No occurrence of `e` in `B ++ X` when `e` is absent from the full
replacement `repl` (of which `B` is a suffix), no non-empty prefix of `e`
is a suffix of `repl`, and `e` is absent from `X`. -/
theorem containsCI_append_eq_false (e repl : Str)
    (cA : ∀ k, k < e.length → isSuffixCI (e.take (k + 1)) repl = false)
    (c1 : containsCI repl e = false) :
    ∀ B X, B <:+ repl → containsCI X e = false → containsCI (B ++ X) e = false := by
  intro B
  induction B with
  | nil => intro X hB hX; simpa using hX
  | cons b B' ih =>
    intro X hB hX
    have htail : containsCI (B' ++ X) e = false :=
      ih X (List.IsSuffix.trans (List.suffix_cons b B') hB) hX
    have hhead : startsWithCI e ((b :: B') ++ X) = false := by
      cases hsw : startsWithCI e ((b :: B') ++ X) with
      | false => rfl
      | true =>
        exfalso
        rcases startsWithCI_append_split hsw with ⟨hl, hs⟩ | ⟨hl, hc, hd⟩
        · have hb : containsCI (b :: B') e = true := containsCI_of_startsWithCI hs
          have hrepl : containsCI repl e = true := containsCI_mono_suffix hB hb
          rw [c1] at hrepl
          exact absurd hrepl (by simp)
        · have hk : ((b :: B').length - 1) + 1 = (b :: B').length := by simp
          have hcA := cA ((b :: B').length - 1) (by omega)
          rw [hk] at hcA
          have hsfx : isSuffixCI (e.take (b :: B').length) repl = true :=
            isSuffixCI_of_ciEq_suffix hc hB
          rw [hcA] at hsfx
          exact absurd hsfx (by simp)
    rw [List.cons_append] at hhead
    rw [List.cons_append, containsCI]
    simp [hhead, htail]

/-- Invariant used below: under the overlap-freedom side conditions, a
non-empty proper suffix of `e` that is a case-insensitive prefix of a
replacement pass's output was already a prefix of the pass's input. -/
theorem replaceAllCIAux_prefix_inv (e repl p : Str)
    (c3 : ∀ k, k + 1 < e.length → startsWithCI (e.drop (k + 1)) repl = false)
    (c4 : containsCI e repl = false) :
    ∀ fuel s z y, e = z ++ y → z ≠ [] → y ≠ [] →
      startsWithCI y (replaceAllCIAux p repl fuel s) = true → startsWithCI y s = true := by
  intro fuel
  induction fuel with
  | zero => intro s z y he hz hy h; simpa [replaceAllCIAux] using h
  | succ n ih =>
    intro s z y he hz hy h
    cases s with
    | nil =>
      cases y with
      | nil => exact absurd rfl hy
      | cons y0 ys => simp [replaceAllCIAux, startsWithCI] at h
    | cons c rest =>
      rw [replaceAllCIAux] at h
      split at h
      · rcases startsWithCI_append_split h with ⟨hl, hsw⟩ | ⟨hl, hc, hd⟩
        · exfalso
          have hzlen : 0 < z.length := List.length_pos.mpr hz
          have hylen : 0 < y.length := List.length_pos.mpr hy
          have hk : (z.length - 1) + 1 = z.length := by omega
          have helen : z.length < e.length := by
            subst he; simp [List.length_append]; omega
          have hc3 := c3 (z.length - 1) (by omega)
          rw [hk] at hc3
          have hdrop : e.drop z.length = y := by subst he; exact List.drop_left z y
          rw [hdrop] at hc3
          rw [hsw] at hc3
          exact absurd hc3 (by simp)
        · exfalso
          have hsw2 : startsWithCI repl y = true :=
            startsWithCI_of_take_ciEq (Nat.le_of_lt hl) hc
          have hsuf : y <:+ e := by subst he; exact List.suffix_append z y
          have hce : containsCI e repl = true := containsCI_of_suffix_start hsuf hsw2
          rw [c4] at hce
          exact absurd hce (by simp)
      · cases y with
        | nil => exact absurd rfl hy
        | cons y0 ys =>
          simp only [startsWithCI, Bool.and_eq_true, decide_eq_true_eq] at h
          obtain ⟨h1, h2⟩ := h
          cases ys with
          | nil => simp [startsWithCI, h1]
          | cons y1 ys' =>
            have hys : startsWithCI (y1 :: ys') rest = true := by
              apply ih rest (z ++ [y0]) (y1 :: ys') ?_ (by simp) (by simp) h2
              rw [he]; simp
            simp [startsWithCI, h1, hys]

/-- Core redaction lemma: one replacement pass over `s` (with enough fuel)
leaves no occurrence of `e`, provided `e` satisfies the overlap-freedom
side conditions w.r.t. `repl`, and either the pass's own pattern is `e`
itself or `e` did not occur in `s` to begin with. -/
theorem replaceAllCIAux_no_occ (e repl p : Str) (he : e ≠ []) (hp : p ≠ [])
    (cA : ∀ k, k < e.length → isSuffixCI (e.take (k + 1)) repl = false)
    (c1 : containsCI repl e = false)
    (c3 : ∀ k, k + 1 < e.length → startsWithCI (e.drop (k + 1)) repl = false)
    (c4 : containsCI e repl = false) :
    ∀ fuel s, s.length ≤ fuel → (p = e ∨ containsCI s e = false) →
      containsCI (replaceAllCIAux p repl fuel s) e = false := by
  intro fuel
  induction fuel with
  | zero =>
    intro s hlen hd
    have hs : s = [] := List.length_eq_zero.mp (Nat.le_zero.mp hlen)
    subst hs
    cases e with
    | nil => exact absurd rfl he
    | cons e0 es => simp [replaceAllCIAux, containsCI, startsWithCI]
  | succ n ih =>
    intro s hlen hd
    cases s with
    | nil =>
      cases e with
      | nil => exact absurd rfl he
      | cons e0 es => simp [replaceAllCIAux, containsCI, startsWithCI]
    | cons c rest =>
      rw [replaceAllCIAux]
      have hrest_len : rest.length ≤ n := by
        simpa using Nat.le_of_succ_le_succ hlen
      split
      next hmatch =>
        have hXd : p = e ∨ containsCI (rest.drop (p.length - 1)) e = false := by
          rcases hd with rfl | hcr
          · exact Or.inl rfl
          · refine Or.inr ?_
            cases hx : containsCI (rest.drop (p.length - 1)) e with
            | false => rfl
            | true =>
              exfalso
              have h1 : containsCI rest e = true :=
                containsCI_mono_suffix (List.drop_suffix _ _) hx
              have h2 : containsCI (c :: rest) e = true :=
                containsCI_mono_suffix (List.suffix_cons c rest) h1
              rw [hcr] at h2
              exact absurd h2 (by simp)
        have hX : containsCI (replaceAllCIAux p repl n (rest.drop (p.length - 1))) e = false :=
          ih _ (by simp [List.length_drop]; omega) hXd
        exact containsCI_append_eq_false e repl cA c1 repl _ (List.suffix_refl repl) hX
      next hmatch =>
        have hTd : p = e ∨ containsCI rest e = false := by
          rcases hd with rfl | hcr
          · exact Or.inl rfl
          · refine Or.inr ?_
            cases hx : containsCI rest e with
            | false => rfl
            | true =>
              exfalso
              have h2 : containsCI (c :: rest) e = true :=
                containsCI_mono_suffix (List.suffix_cons c rest) hx
              rw [hcr] at h2
              exact absurd h2 (by simp)
        have hT : containsCI (replaceAllCIAux p repl n rest) e = false := ih rest hrest_len hTd
        have hhead : startsWithCI e (c :: replaceAllCIAux p repl n rest) = false := by
          cases hsw : startsWithCI e (c :: replaceAllCIAux p repl n rest) with
          | false => rfl
          | true =>
            exfalso
            cases e with
            | nil => exact absurd rfl he
            | cons e0 es =>
              simp only [startsWithCI, Bool.and_eq_true, decide_eq_true_eq] at hsw
              obtain ⟨h1, h2⟩ := hsw
              have hstart : startsWithCI (e0 :: es) (c :: rest) = true := by
                cases es with
                | nil => simp [startsWithCI, h1]
                | cons e1 es' =>
                  have hinv := replaceAllCIAux_prefix_inv (e0 :: e1 :: es') repl p c3 c4 n rest
                    [e0] (e1 :: es') rfl (by simp) (by simp) h2
                  simp [startsWithCI, h1, hinv]
              rcases hd with rfl | h4
              · exact hmatch hstart
              · have h3 : containsCI (c :: rest) (e0 :: es) = true :=
                  containsCI_of_startsWithCI hstart
                rw [h4] at h3
                exact absurd h3 (by simp)
        rw [containsCI]
        simp [hhead, hT]

/-- Unpack the Boolean `overlapFree` into its four side conditions. -/
theorem overlapFree_spec {e repl : Str} (h : overlapFree e repl = true) :
    containsCI repl e = false ∧ containsCI e repl = false ∧
    (∀ k, k < e.length → isSuffixCI (e.take (k + 1)) repl = false) ∧
    (∀ k, k + 1 < e.length → startsWithCI (e.drop (k + 1)) repl = false) := by
  simp only [overlapFree, Bool.and_eq_true, Bool.not_eq_true', List.all_eq_true,
    List.mem_range] at h
  obtain ⟨⟨⟨h1, h2⟩, h3⟩, h4⟩ := h
  exact ⟨h1, h2, fun k hk => h3 k hk, fun k hk => h4 k (by omega)⟩

/-- One whole replacement pass (pattern `p`, replacement `repl`) leaves no
occurrence of an overlap-free `e` when `p = e` or `e` was absent. -/
theorem replaceAllCI_no_occ (e repl p s : Str) (he : e ≠ []) (hp : p ≠ [])
    (hov : overlapFree e repl = true) (hd : p = e ∨ containsCI s e = false) :
    containsCI (replaceAllCI p repl s) e = false := by
  obtain ⟨h1, h2, h3, h4⟩ := overlapFree_spec hov
  unfold replaceAllCI
  rw [if_neg hp]
  exact replaceAllCIAux_no_occ e repl p he hp h3 h1 h4 h2 s.length s (Nat.le_refl _) hd

/-- A fold of replacement passes (all with replacement `repl`) preserves
absence of an overlap-free `e`. -/
theorem foldl_replace_preserve (e repl : Str) (he : e ≠ []) (hov : overlapFree e repl = true)
    (ps : List Str) (hps : ∀ p ∈ ps, p ≠ []) :
    ∀ t, containsCI t e = false →
      containsCI (ps.foldl (fun acc p => replaceAllCI p repl acc) t) e = false := by
  induction ps with
  | nil => intro t ht; simpa using ht
  | cons p ps' ih =>
    intro t ht
    have hp : p ≠ [] := hps p (by simp)
    have hstep : containsCI (replaceAllCI p repl t) e = false :=
      replaceAllCI_no_occ e repl p t he hp hov (Or.inr ht)
    simpa using ih (fun q hq => hps q (by simp [hq])) (replaceAllCI p repl t) hstep

/-- A fold of replacement passes whose pattern list contains `e` removes
every occurrence of an overlap-free `e`. -/
theorem foldl_replace_removes (e repl : Str) (hov : overlapFree e repl = true)
    (ps : List Str) (hmem : e ∈ ps) (hps : ∀ p ∈ ps, p ≠ []) (t : Str) :
    containsCI (ps.foldl (fun acc p => replaceAllCI p repl acc) t) e = false := by
  have he : e ≠ [] := hps e hmem
  induction ps generalizing t with
  | nil => exact absurd hmem (by simp)
  | cons p ps' ih =>
    by_cases hmem' : e ∈ ps'
    · exact ih hmem' (fun q hq => hps q (by simp [hq])) _
    · have hpe : p = e := by
        rcases List.mem_cons.mp hmem with h | h
        · exact h.symm
        · exact absurd h hmem'
      have hp : p ≠ [] := hps p (by simp)
      have hstep : containsCI (replaceAllCI p repl t) e = false :=
        replaceAllCI_no_occ e repl p t he hp hov (Or.inl hpe)
      simpa using foldl_replace_preserve e repl he hov ps'
        (fun q hq => hps q (by simp [hq])) (replaceAllCI p repl t) hstep

/-- If `e` does not occur in `s`, a replacement pass is the identity. -/
theorem replaceAllCIAux_id_of_no_occ (p repl : Str) :
    ∀ fuel s, containsCI s p = false → replaceAllCIAux p repl fuel s = s := by
  intro fuel
  induction fuel with
  | zero => intro s _; rfl
  | succ n ih =>
    intro s h
    cases s with
    | nil => rfl
    | cons c rest =>
      rw [containsCI] at h
      simp only [Bool.or_eq_false_iff] at h
      rw [replaceAllCIAux, if_neg (by simp [h.1]), ih rest h.2]

theorem replaceAllCI_id_of_no_occ (p repl s : Str) (h : containsCI s p = false) :
    replaceAllCI p repl s = s := by
  unfold replaceAllCI
  split
  · rfl
  · exact replaceAllCIAux_id_of_no_occ p repl s.length s h

theorem foldl_replace_id (repl : Str) (ps : List Str) (t : Str)
    (h : ∀ p ∈ ps, containsCI t p = false) :
    ps.foldl (fun acc p => replaceAllCI p repl acc) t = t := by
  induction ps with
  | nil => rfl
  | cons p ps' ih =>
    have h1 : replaceAllCI p repl t = t := replaceAllCI_id_of_no_occ p repl t (h p (by simp))
    simp only [List.foldl_cons, h1]
    exact ih (fun q hq => h q (by simp [hq]))

theorem honeytrapEmails_ne_nil {env : HoneytrapEnv} {e : Str} (h : e ∈ honeytrapEmails env) :
    e ≠ [] := by
  unfold honeytrapEmails at h
  split at h
  · exact absurd h (by simp)
  · have := (List.mem_filter.mp h).2
    simpa using this

theorem honeytrapIds_ne_nil {env : HoneytrapEnv} {i : Str} (h : i ∈ honeytrapIds env) :
    i ≠ [] := by
  unfold honeytrapIds at h
  split at h
  · exact absurd h (by simp)
  · have := (List.mem_filter.mp h).2
    simpa using this

/-- Shared core of C6 and C8: after redaction no occurrence of a
configured honeytrap email survives, provided the email is overlap-free
with both placeholders. -/
theorem redact_removes_email (env : HoneytrapEnv) (t e : Str)
    (hmem : e ∈ honeytrapEmails env)
    (h1 : overlapFree e emailPlaceholder = true)
    (h2 : overlapFree e idPlaceholder = true) :
    containsCI (redactHoneytrap env t) e = false := by
  have he : e ≠ [] := honeytrapEmails_ne_nil hmem
  unfold redactHoneytrap
  exact foldl_replace_preserve e idPlaceholder he h2 (honeytrapIds env)
    (fun q hq => honeytrapIds_ne_nil hq) _
    (foldl_replace_removes e emailPlaceholder h1 (honeytrapEmails env) hmem
      (fun q hq => honeytrapEmails_ne_nil hq) t)

/-- After redaction no occurrence of a configured honeytrap id survives,
provided the id is overlap-free with the id placeholder. -/
theorem redact_removes_id (env : HoneytrapEnv) (t i : Str)
    (hmem : i ∈ honeytrapIds env)
    (h1 : overlapFree i idPlaceholder = true) :
    containsCI (redactHoneytrap env t) i = false := by
  unfold redactHoneytrap
  exact foldl_replace_removes i idPlaceholder h1 (honeytrapIds env) hmem
    (fun q hq => honeytrapIds_ne_nil hq) _

/-- C6 (counterexample): the guarantee "no occurrence of a configured
honeytrap email survives in the outgoing subject" fails when the honeytrap
overlaps the replacement placeholder: redacting the subject
`"m@x.com@x.com"` for the configured honeytrap `"m@x.com"` yields
`"*******@*******.com@x.com"`, in which `"m@x.com"` occurs again (the
placeholder's tail splices with the remaining text). -/
theorem C6_counterexample :
    ("m@x.com".toList ∈ honeytrapEmails ⟨"m@x.com".toList, []⟩) ∧
    containsCI (redactHoneytrap ⟨"m@x.com".toList, []⟩ "m@x.com@x.com".toList)
      "m@x.com".toList = true := by decide

/-- C6 (amended): for every configured honeytrap email that is
overlap-free with the two redaction placeholders, no occurrence (any
character case) survives redaction — and the subject, cleaned body text
and sanitized HTML are each exactly a `redactHoneytrap` output (for the
body text, up to the external text cleaner, which runs after redaction). -/
theorem C6_overlap_free_email_never_survives (env : HoneytrapEnv) (t e : Str)
    (hmem : e ∈ honeytrapEmails env)
    (h1 : overlapFree e emailPlaceholder = true)
    (h2 : overlapFree e idPlaceholder = true) :
    containsCI (redactHoneytrap env t) e = false :=
  redact_removes_email env t e hmem h1 h2

/-- C6 witness. -/
theorem C6_witness :
    ("bot@decoy.org".toList ∈ honeytrapEmails ⟨"bot@decoy.org".toList, "IDX7".toList⟩ ∧
      overlapFree "bot@decoy.org".toList emailPlaceholder = true ∧
      overlapFree "bot@decoy.org".toList idPlaceholder = true) ∧
    containsCI (redactHoneytrap ⟨"bot@decoy.org".toList, "IDX7".toList⟩
      "please reply to BOT@decoy.org (id IDX7) now".toList) "bot@decoy.org".toList = false :=
  ⟨⟨by decide, by decide, by decide⟩,
   C6_overlap_free_email_never_survives ⟨"bot@decoy.org".toList, "IDX7".toList⟩
     "please reply to BOT@decoy.org (id IDX7) now".toList "bot@decoy.org".toList
     (by decide) (by decide) (by decide)⟩

/-- C8 (counterexample): redaction is not idempotent for every
configuration and text: with honeytrap `"m@q.com"` and text
`"m@q.com@q.com"`, the first pass yields `"*******@*******.com@q.com"`,
which still contains the honeytrap, so a second pass changes it again. -/
theorem C8_counterexample :
    redactHoneytrap ⟨"m@q.com".toList, []⟩
        (redactHoneytrap ⟨"m@q.com".toList, []⟩ "m@q.com@q.com".toList)
      ≠ redactHoneytrap ⟨"m@q.com".toList, []⟩ "m@q.com@q.com".toList := by decide

/-- C8 (amended): redaction is idempotent whenever every configured
honeytrap email is overlap-free with both placeholders and every
configured id is overlap-free with the id placeholder (no honeytrap can
splice with a placeholder): the first pass removes every occurrence of
every configured pattern, so the second pass is a no-op. -/
theorem C8_redaction_idempotent (env : HoneytrapEnv) (t : Str)
    (hE : ∀ e ∈ honeytrapEmails env,
      overlapFree e emailPlaceholder = true ∧ overlapFree e idPlaceholder = true)
    (hI : ∀ i ∈ honeytrapIds env, overlapFree i idPlaceholder = true) :
    redactHoneytrap env (redactHoneytrap env t) = redactHoneytrap env t := by
  have hEr : ∀ e ∈ honeytrapEmails env, containsCI (redactHoneytrap env t) e = false :=
    fun e he => redact_removes_email env t e he (hE e he).1 (hE e he).2
  have hIr : ∀ i ∈ honeytrapIds env, containsCI (redactHoneytrap env t) i = false :=
    fun i hi => redact_removes_id env t i hi (hI i hi)
  conv =>
    lhs
    rw [redactHoneytrap]
  rw [foldl_replace_id emailPlaceholder (honeytrapEmails env) _ hEr]
  rw [foldl_replace_id idPlaceholder (honeytrapIds env) _ hIr]

/-- C8 witness (the overlap-freedom hypotheses for this concrete
configuration are discharged by `decide` inside the proof). -/
theorem C8_witness :
    redactHoneytrap ⟨"bot2@decoy.net".toList, "TRK9".toList⟩
        (redactHoneytrap ⟨"bot2@decoy.net".toList, "TRK9".toList⟩
          "hello bot2@decoy.net TRK9 bye".toList)
      = redactHoneytrap ⟨"bot2@decoy.net".toList, "TRK9".toList⟩
          "hello bot2@decoy.net TRK9 bye".toList :=
  C8_redaction_idempotent ⟨"bot2@decoy.net".toList, "TRK9".toList⟩
    "hello bot2@decoy.net TRK9 bye".toList (by decide) (by decide)
